import Mathlib

/-!
# Verification of the anima generation core

Shallow embedding of the music-generation program: the tempo-scaling
utilities (`utils/tools.py`), the repetition-limit bands (`scale_limit`),
the `Bar` time-quantization container (`containers/bar.py`), the
stochastic rhythm/dynamic generators (`core/generate.py`) and the chord
renderer (`utils/midi.py`).  Python floats are modelled as rationals
(`ℚ`), Python's `round(x, 3)` as rounding `x * 1000` to the nearest
integer, and the two pseudo-random sources (the generator's owned
`random.Random` instance and the process-wide `random` module consumed by
`scale_limit`) as explicit streams of naturals that are threaded through
each operation.
-/

namespace Anima

/-- A pseudo-random source, modelled as an infinite stream of naturals
(`fn`) together with a cursor (`pos`): the next raw draw is `fn pos`,
and consuming a draw advances the cursor. -/
structure Rng where
  fn : ℕ → ℕ
  pos : ℕ

/-- The next raw draw of a random source. -/
def Rng.draw (g : Rng) : ℕ := g.fn g.pos

/-- Advance a random source past its next draw. -/
def Rng.next (g : Rng) : Rng := { g with pos := g.pos + 1 }

/-- `random.randint(a, b)`: an integer in `[a, b]`, consuming one draw.
(All call sites in the program satisfy `a ≤ b`.) -/
def randint (a b : ℕ) (g : Rng) : ℕ × Rng :=
  (a + g.draw % (b + 1 - a), g.next)

/-- `random.choice(seq)`: an element of `seq`, consuming one draw.
`d` is a default returned for the empty list (where Python raises;
every palette passed in the program is non-empty). -/
def choice {α : Type} (l : List α) (d : α) (g : Rng) : α × Rng :=
  (l.getD (g.draw % l.length) d, g.next)

/-- `round(x, 3)` on a rational: round `x * 1000` to the nearest integer
(Python's float `round` agrees with this on the program's inputs). -/
def round3 (x : ℚ) : ℚ := (round (x * 1000) : ℤ) / 1000

/-- `tools._scale(rhythms, diff, revert)`: multiply by the converter
`diff`, or divide by it when `revert` is set. -/
def _scale (rhythms diff : ℚ) (revert : Bool) : ℚ :=
  if revert then rhythms / diff else rhythms * diff

/-- `tools.scale_to_tempo(tempo, rhythms, revert)`, single-float path:
scale by `60 / tempo` and round to three decimal places. -/
def scale_to_tempo (tempo rhythms : ℚ) (revert : Bool) : ℚ :=
  round3 (_scale rhythms (60 / tempo) revert)

/-- A Python number as it flows into `scale_to_tempo`'s dynamic type
dispatch: `type(rhythms) == float` admits only the `float` arm, so an
`int` falls through to the `TypeError` branch. -/
inductive PyNum : Type
  | int (n : ℤ)
  | float (q : ℚ)
deriving DecidableEq, Repr

/-- Numeric value of a `PyNum` (Python's `==` compares across the two
types by value, as in `meter[1] in BEATS`). -/
def PyNum.toQ : PyNum → ℚ
  | .int n => (n : ℚ)
  | .float q => q

/-- `tools.scale_to_tempo` exactly as dispatched on a scalar argument:
a `float` is scaled and rounded, anything else raises `TypeError`. -/
def scale_to_tempo_num (tempo : ℚ) (rhythms : PyNum) (revert : Bool) :
    Except String ℚ :=
  match rhythms with
  | .float q => .ok (scale_to_tempo tempo q revert)
  | .int _ =>
    .error "incorrect input type. must be single float or list of floats!"

/-- Modelled from the spec: the allowed beat-duration set `BEATS`
(`core/constants.py` is not under `src/`).  Symbolic durations at the
reference tempo, quarter note = 1.0: whole, half, quarter, eighth,
sixteenth, thirty-second. -/
def BEATS : List ℚ := [4, 2, 1, 1/2, 1/4, 1/8]

/-- `analyze.is_valid(meter)`: positive numerator and a denominator in
the allowed beat-duration set (`meter[1] in BEATS` compares by value). -/
def is_valid (meter : ℤ × PyNum) : Bool :=
  meter.1 > 0 && BEATS.contains meter.2.toQ

/-- `containers/melody.py` `Melody`: tempo, instrument and the three
parallel sequences.  The provenance metadata fields (`info`, `pcs`,
`source_data`, `source_notes`) are untouched by every operation the
claims mention and are omitted. -/
structure MelodyState where
  tempo : ℚ
  instrument : String
  notes : List String
  rhythms : List ℚ
  dynamics : List ℤ
deriving DecidableEq, Repr

/-- `Melody.is_empty`: all three parallel sequences are empty. -/
def MelodyState.is_empty (m : MelodyState) : Bool :=
  m.notes.isEmpty && m.rhythms.isEmpty && m.dynamics.isEmpty

/-- `containers/bar.py` `Bar`: meter, tempo, derived `length`,
instrument, committed time `current_beat`, terminal `full` flag, and the
three committed sequences of the `self.bar` dict.  `Bar.clear` assigns
the empty tuple to `meter`, modelled as `none`. -/
structure BarState where
  meter : Option (ℤ × ℚ)
  tempo : ℚ
  length : ℚ
  instrument : String
  current_beat : ℚ
  full : Bool
  notes : List String
  rhythms : List ℚ
  dynamics : List ℤ
deriving DecidableEq, Repr

/-- `Bar.__init__(meter, tempo)` with the default instrument: validate
the meter, validate the tempo (`40 < tempo < 240`), then compute
`length = meter[0] * scale_to_tempo(tempo, meter[1])` — which raises
`TypeError` when `meter[1]` is an `int`, because `scale_to_tempo` only
accepts a `float` scalar. -/
def Bar.init (num : ℤ) (den : PyNum) (tempo : ℚ) :
    Except String BarState :=
  if ¬ is_valid (num, den) then .error "Invalid meter!"
  else if ¬ (40 < tempo ∧ tempo < 240) then
    .error "Tempo must be a float between 40 and 240."
  else
    match scale_to_tempo_num tempo den false with
    | .error e => .error e
    | .ok beat =>
      .ok { meter := some (num, den.toQ)
            tempo := tempo
            length := num * beat
            instrument := "Acoustic Grand Piano"
            current_beat := 0
            full := false
            notes := []
            rhythms := []
            dynamics := [] }

/-- `Bar.clear()`: reset `meter`, `tempo`, `length`, `instrument`,
`current_beat` and the three committed lists to defaults.  The source
clears exactly these fields; the `full` flag is not assigned. -/
def BarState.clear (b : BarState) : BarState :=
  { b with meter := none
           tempo := 0
           length := 0
           instrument := ""
           current_beat := 0
           notes := []
           rhythms := []
           dynamics := [] }

/-- The `while` loop of `Bar.add_notes`, with the melody's three lists
passed explicitly and the rhythms list driving the recursion.  Each
iteration adds the head rhythm to `current_beat`; below `length` the
triple is popped and committed verbatim, at or above `length` the triple
is committed with the rhythm cut by the overflow, the melody keeps the
note with its rhythm overwritten by the overflow, and the bar is marked
full.  Python's `IndexError` on a melody whose note or dynamic list runs
out before its rhythm list is modelled as an error result. -/
def addNotesGo (b : BarState) (notes : List String) (dynamics : List ℤ)
    (rhythms : List ℚ) :
    Except String (BarState × List String × List ℚ × List ℤ) :=
  match rhythms with
  | [] => .ok (b, notes, [], dynamics)
  | r :: rs =>
    if b.full then .ok (b, notes, r :: rs, dynamics)
    else
      let cb := b.current_beat + r
      if cb < b.length then
        match notes.head?, dynamics.head? with
        | some n, some d =>
          addNotesGo
            { b with current_beat := cb
                     notes := b.notes ++ [n]
                     rhythms := b.rhythms ++ [r]
                     dynamics := b.dynamics ++ [d] }
            notes.tail dynamics.tail rs
        | _, _ => .error "IndexError: pop from empty list"
      else
        match notes.head?, dynamics.head? with
        | some n, some d =>
          .ok ({ b with current_beat := cb
                        full := true
                        notes := b.notes ++ [n]
                        rhythms := b.rhythms ++ [r - (cb - b.length)]
                        dynamics := b.dynamics ++ [d] },
               notes, (cb - b.length) :: rs, dynamics)
        | _, _ => .error "IndexError: list index out of range"
termination_by rhythms.length
decreasing_by simp

/-- `Bar.add_notes(mel)`: adopt the melody's tempo and instrument, run
the quantization loop, and return the updated bar together with the
(possibly partially drained) melody. -/
def add_notes (b : BarState) (m : MelodyState) :
    Except String (BarState × MelodyState) :=
  let b1 := { b with tempo := m.tempo, instrument := m.instrument }
  match addNotesGo b1 m.notes m.dynamics m.rhythms with
  | .error e => .error e
  | .ok (b2, ns, rs, ds) =>
    .ok (b2, { m with notes := ns, rhythms := rs, dynamics := ds })

/-- Modelled from the spec: the rhythm palette `RHYTHMS`
(`core/constants.py` is not under `src/`).  Symbolic durations at the
reference tempo, quarter note = 1.0. -/
def RHYTHMS : List ℚ := [4, 3, 2, 3/2, 1, 3/4, 1/2, 3/8, 1/4, 1/8]

/-- Modelled from the spec: the dynamics palette `DYNAMICS`
(`core/constants.py` is not under `src/`).  MIDI velocities in
`[0, 127]`, none equal to the rest value 0. -/
def DYNAMICS : List ℤ := [36, 44, 52, 60, 68, 76, 84, 92, 100, 108]

/-- Modelled from the spec: `REST` is velocity 0 ("0 meaning rest"). -/
def REST : ℤ := 0

/-- Modelled from the spec: `BASE_TEMPO` is the 60-BPM reference tempo
at which symbolic durations are authored. -/
def BASE_TEMPO : ℚ := 60

/-- `tools.scale_limit(given_total_items)`: repetition limit from fixed
proportional bands.  Faithful to the source: in the `1..10` band the
fresh `randint(1, 3)` draw is assigned to the parameter
`given_total_items`, not to `rep_limit`, so the band returns the
initial `rep_limit = 0` (while still consuming one draw from the
process-wide `random` module, which this function uses throughout). -/
def scale_limit (total : ℕ) (g : Rng) : Except String (ℕ × Rng) :=
  if total < 1 then .error "total cannot be less than 1"
  else if total ≤ 10 then
    let p := randint 1 3 g
    .ok (0, p.2)
  else if total ≤ 100 then .ok (randint 1 (total * 2 / 10) g)
  else if total ≤ 300 then .ok (randint 1 (total * 75 / 1000) g)
  else if total ≤ 500 then .ok (randint 1 (total * 5 / 100) g)
  else if total ≤ 700 then .ok (randint 1 (total * 35 / 1000) g)
  else if total ≤ 1000 then .ok (randint 1 (total * 2 / 100) g)
  else .ok (randint 1 (total * 1 / 1000) g)

/-- `Generate._get_repetition_limit(total)`: `max(scale_limit(total), 2)`.
`scale_limit` draws from the process-wide `random` module, so this is
the one place the generator consults state outside its owned source. -/
def _get_repetition_limit (total : ℕ) (g : Rng) :
    Except String (ℕ × Rng) :=
  (scale_limit total g).map fun p => (max p.1 2, p.2)

/-- `Generate.generate_dynamic(allow_rests)`: with rests allowed, a
coin flip on the owned source may yield `REST`; otherwise a palette
choice. -/
def generate_dynamic (allow_rests : Bool) (g : Rng) : ℤ × Rng :=
  if allow_rests then
    let p := randint 0 1 g
    if p.1 = 1 then (REST, p.2) else choice DYNAMICS 0 p.2
  else choice DYNAMICS 0 g

/-- The inner `for _ in range(total_reps)` of the generation loops:
append copies of `x` but stop the instant the target length is
reached. -/
def appendRun {α : Type} (acc : List α) (x : α) (reps total : ℕ) :
    List α :=
  acc ++ List.replicate (min reps (total - acc.length)) x

/-- The palette `generate_rhythms` draws from:
`source_rhythms if source_rhythms else RHYTHMS` (Python truthiness sends
both `None` and the empty list to `RHYTHMS`). -/
def rhythm_palette (source : Option (List ℚ)) : List ℚ :=
  match source with
  | some s => if s.isEmpty then RHYTHMS else s
  | none => RHYTHMS

/-- The `while len(rhythms) < total` loop of `Generate.generate_rhythms`,
with explicit fuel (each iteration appends at least one element, so
`total` units of fuel suffice).  `own` is the generator's owned random
source; `glob` is the process-wide `random` module consumed by
`scale_limit` inside `_get_repetition_limit`. -/
def genRhythmsLoop (pal : List ℚ) (total : ℕ) :
    ℕ → Rng → Rng → List ℚ → Except String (List ℚ × Rng × Rng)
  | 0, own, glob, acc => .ok (acc, own, glob)
  | fuel + 1, own, glob, acc =>
    if total ≤ acc.length then .ok (acc, own, glob)
    else
      let c := choice pal 0 own
      let b := randint 1 2 c.2
      if b.1 = 1 then
        match _get_repetition_limit total glob with
        | .error e => .error e
        | .ok (limit, glob2) =>
          let t := randint 1 limit b.2
          genRhythmsLoop pal total fuel t.2 glob2
            (appendRun acc c.1 t.1 total)
      else
        genRhythmsLoop pal total fuel b.2 glob (acc ++ [c.1])

/-- `Generate.generate_rhythms(total, tempo, source_rhythms)` with the
target count supplied: choose from the palette (the supplied source when
non-empty, else `RHYTHMS`), optionally extending into runs, then scale
the whole list to the tempo when one is given and differs from
`BASE_TEMPO`. -/
def generate_rhythms (total : ℕ) (tempo : Option ℚ)
    (source : Option (List ℚ)) (own glob : Rng) :
    Except String (List ℚ × Rng × Rng) :=
  match genRhythmsLoop (rhythm_palette source) total total own glob [] with
  | .error e => .error e
  | .ok (rs, own2, glob2) =>
    match tempo with
    | some t =>
      if t ≠ BASE_TEMPO then
        .ok (rs.map (fun r => scale_to_tempo t r false), own2, glob2)
      else .ok (rs, own2, glob2)
    | none => .ok (rs, own2, glob2)

/-- The `while len(dynamics) < total` loop of
`Generate.generate_dynamics`, with explicit fuel as in the rhythm loop.
A run of rests is capped at 2 (`limit if dynamic != REST else 2`). -/
def genDynamicsLoop (allow_rests : Bool) (total : ℕ) :
    ℕ → Rng → Rng → List ℤ → Except String (List ℤ × Rng × Rng)
  | 0, own, glob, acc => .ok (acc, own, glob)
  | fuel + 1, own, glob, acc =>
    if total ≤ acc.length then .ok (acc, own, glob)
    else
      let c := generate_dynamic allow_rests own
      let b := randint 1 2 c.2
      if b.1 = 1 then
        match _get_repetition_limit total glob with
        | .error e => .error e
        | .ok (limit, glob2) =>
          let t := randint 1 (if c.1 ≠ REST then limit else 2) b.2
          genDynamicsLoop allow_rests total fuel t.2 glob2
            (appendRun acc c.1 t.1 total)
      else
        genDynamicsLoop allow_rests total fuel b.2 glob (acc ++ [c.1])

/-- `Generate.generate_dynamics(total, allow_rests)` with the target
count supplied. -/
def generate_dynamics (total : ℕ) (allow_rests : Bool) (own glob : Rng) :
    Except String (List ℤ × Rng × Rng) :=
  genDynamicsLoop allow_rests total total own glob []

/-- Modelled from the spec: the twelve chromatic pitch-class names used
to build the chromatic reference table (`core/constants.py` is not
under `src/`). -/
def PITCH_CLASSES : List String :=
  ["C", "C#", "D", "D#", "E", "F"] ++ ["F#", "G", "G#", "A", "A#", "B"]

/-- One octave of the chromatic reference table: each pitch-class name
suffixed with the octave digit. -/
def octave_notes (o : String) : List String :=
  PITCH_CLASSES.map (fun pc => pc ++ o)

/-- Modelled from the spec: the chromatic note-name table `NOTES`
covering the 88-key range A0 to C8 (`core/constants.py` is not under
`src/`). -/
def NOTES : List String :=
  ["A0", "A#0", "B0"] ++ octave_notes "1" ++ octave_notes "2" ++
    octave_notes "3" ++ octave_notes "4" ++ octave_notes "5" ++
    octave_notes "6" ++ octave_notes "7" ++ ["C8"]

/-- `MIN_MIDI_NOTE`: MIDI numbers start at 21 (A0), per the docstring of
`note_name_to_MIDI_num` in `utils/midi.py`. -/
def MIN_MIDI_NOTE : ℕ := 21

/-- Python's `list.index`: the position of the first occurrence, or
nothing when the element is absent. -/
def list_index (x : String) : List String → Option ℕ
  | [] => none
  | y :: ys =>
    if y = x then some 0 else Option.map (fun i => i + 1) (list_index x ys)

/-- `midi.note_name_to_MIDI_num(note)`: `NOTES.index(note) + 21`;
`list.index` raises `ValueError` when the name is not in the table. -/
def note_name_to_MIDI_num (note : String) : Except String ℕ :=
  match list_index note NOTES with
  | some i => .ok (i + MIN_MIDI_NOTE)
  | none => .error "ValueError: note is not in NOTES"

/-- Modelled from the spec: the `Chord` container
(`containers/chord.py` is not under `src/`) — tempo, instrument, member
notes, and exactly one shared rhythm and one shared dynamic. -/
structure ChordState where
  tempo : ℚ
  instrument : String
  notes : List String
  rhythm : ℚ
  dynamic : ℤ
deriving DecidableEq, Repr

/-- A `pretty_midi.Note` event: velocity, pitch and an absolute-time
interval. -/
structure MidiNote where
  velocity : ℤ
  pitch : ℕ
  start : ℚ
  «end» : ℚ
deriving DecidableEq, Repr

/-- The `for note_str in chord.notes` loop of `midi.chord_to_notes`:
one event per member note, all sharing the velocity and interval. -/
def chordNotesGo (dynamic : ℤ) (start stop : ℚ) :
    List String → Except String (List MidiNote)
  | [] => .ok []
  | n :: ns =>
    match note_name_to_MIDI_num n with
    | .error e => .error e
    | .ok p =>
      match chordNotesGo dynamic start stop ns with
      | .error e => .error e
      | .ok ms => .ok ({ velocity := dynamic, pitch := p,
                         start := start, «end» := stop } :: ms)

/-- `midi.chord_to_notes(chord, start_time)`: every member note becomes
an event on `[start_time, start_time + chord.rhythm]` with the chord's
dynamic as velocity; the returned next start time is the shared end
time. -/
def chord_to_notes (c : ChordState) (start_time : ℚ) :
    Except String (List MidiNote × ℚ) :=
  let end_time := start_time + c.rhythm
  match chordNotesGo c.dynamic start_time end_time c.notes with
  | .error e => .error e
  | .ok ns => .ok (ns, end_time)

/-! ## Invariants of the `Bar.add_notes` loop -/

/-- Concrete 4/4 bar at tempo 60 with beat unit given as the symbolic
quarter-note duration `1.0`, exactly as `Bar.init 4 (.float 1) 60`
produces it. -/
def exBar : BarState :=
  { meter := some (4, 1)
    tempo := 60
    length := 4
    instrument := "Acoustic Grand Piano"
    current_beat := 0
    full := false
    notes := []
    rhythms := []
    dynamics := [] }

/-- Concrete melody of the spec's bar-filling scenario: four notes with
rhythms `[1, 1, 1, 1.5]`. -/
def exMelody : MelodyState :=
  { tempo := 60
    instrument := "Violin"
    notes := ["A4", "B4", "C4", "D4"]
    rhythms := [1, 1, 1, 3/2]
    dynamics := [100, 100, 100, 100] }

/-- Concrete melody whose accumulated rhythm lands exactly on the bar
boundary (`1 + 1 + 2 = 4`). -/
def exMelodyExact : MelodyState :=
  { tempo := 60
    instrument := "Violin"
    notes := ["E4", "F4", "G4"]
    rhythms := [1, 1, 2]
    dynamics := [90, 90, 90] }

/-- The quantization loop never touches the bar's `length`. -/
lemma addNotesGo_length (rs : List ℚ) :
    ∀ b ns ds b2 ns2 rs2 ds2,
      addNotesGo b ns ds rs = .ok (b2, ns2, rs2, ds2) →
      b2.length = b.length := by
  induction rs with
  | nil =>
    intro b ns ds b2 ns2 rs2 ds2 h
    simp [addNotesGo] at h
    simp [h.1]
  | cons r rs ih =>
    intro b ns ds b2 ns2 rs2 ds2 h
    by_cases hf : b.full
    · simp [addNotesGo, hf] at h
      simp [h.1]
    · by_cases hlt : b.current_beat + r < b.length
      · cases ns with
        | nil => simp [addNotesGo, hf, hlt] at h
        | cons n ns =>
          cases ds with
          | nil => simp [addNotesGo, hf, hlt] at h
          | cons d ds =>
            simp only [addNotesGo, hf, Bool.false_eq_true, if_false,
              if_pos hlt, List.head?_cons, List.tail_cons] at h
            have hx := ih _ _ _ _ _ _ _ h
            simpa using hx
      · cases ns with
        | nil => simp [addNotesGo, hf, hlt] at h
        | cons n ns =>
          cases ds with
          | nil => simp [addNotesGo, hf, hlt] at h
          | cons d ds =>
            simp [addNotesGo, hf, hlt] at h
            simp [← h.1]

/-- Through the loop, the defect `current_beat - sum(committed rhythms)`
is preserved while the bar is below capacity, and on the iteration that
fills the bar the committed rhythm is cut so that the committed sum
becomes exactly `length + (old defect)`. -/
lemma addNotesGo_sum (rs : List ℚ) :
    ∀ b ns ds b2 ns2 rs2 ds2,
      addNotesGo b ns ds rs = .ok (b2, ns2, rs2, ds2) →
      b.full = false →
      (b2.full = false →
        b2.rhythms.sum - b2.current_beat = b.rhythms.sum - b.current_beat) ∧
      (b2.full = true →
        b2.rhythms.sum = b.rhythms.sum - b.current_beat + b2.length) := by
  induction rs with
  | nil =>
    intro b ns ds b2 ns2 rs2 ds2 h hf
    simp [addNotesGo] at h
    constructor
    · intro _; simp [h.1]
    · intro hfull; rw [← h.1] at hfull; rw [hf] at hfull; cases hfull
  | cons r rs ih =>
    intro b ns ds b2 ns2 rs2 ds2 h hf
    by_cases hlt : b.current_beat + r < b.length
    · cases ns with
      | nil => simp [addNotesGo, hf, hlt] at h
      | cons n ns =>
        cases ds with
        | nil => simp [addNotesGo, hf, hlt] at h
        | cons d ds =>
          simp only [addNotesGo, hf, Bool.false_eq_true, if_false,
            if_pos hlt, List.head?_cons, List.tail_cons] at h
          have hlen := addNotesGo_length rs _ _ _ _ _ _ _ h
          have := ih _ _ _ _ _ _ _ h rfl
          simp only at this hlen
          constructor
          · intro hfull
            rw [this.1 hfull]
            simp only [List.sum_append, List.sum_cons, List.sum_nil]
            ring
          · intro hfull
            rw [this.2 hfull]
            simp only [List.sum_append, List.sum_cons, List.sum_nil]
            ring
    · cases ns with
      | nil => simp [addNotesGo, hf, hlt] at h
      | cons n ns =>
        cases ds with
        | nil => simp [addNotesGo, hf, hlt] at h
        | cons d ds =>
          simp [addNotesGo, hf, hlt] at h
          obtain ⟨hb2, _, _, _⟩ := h
          constructor
          · intro hfull; rw [← hb2] at hfull; cases hfull
          · intro _
            rw [← hb2]
            simp [List.sum_append]
            ring

/-- Through the loop, a bar strictly below capacity stays strictly below
capacity until the filling iteration, which leaves `current_beat` at or
above `length` and stores the overflow at the head of the remainder's
rhythm list. -/
lemma addNotesGo_beat (rs : List ℚ) :
    ∀ b ns ds b2 ns2 rs2 ds2,
      addNotesGo b ns ds rs = .ok (b2, ns2, rs2, ds2) →
      b.full = false →
      (b2.full = false →
        b2.current_beat < b2.length ∨ b2.current_beat = b.current_beat) ∧
      (b2.full = true →
        b2.length ≤ b2.current_beat ∧
        ∃ rest, rs2 = (b2.current_beat - b2.length) :: rest) := by
  induction rs with
  | nil =>
    intro b ns ds b2 ns2 rs2 ds2 h hf
    simp [addNotesGo] at h
    constructor
    · intro _; right; simp [h.1]
    · intro hfull; rw [← h.1] at hfull; rw [hf] at hfull; cases hfull
  | cons r rs ih =>
    intro b ns ds b2 ns2 rs2 ds2 h hf
    by_cases hlt : b.current_beat + r < b.length
    · cases ns with
      | nil => simp [addNotesGo, hf, hlt] at h
      | cons n ns =>
        cases ds with
        | nil => simp [addNotesGo, hf, hlt] at h
        | cons d ds =>
          simp only [addNotesGo, hf, Bool.false_eq_true, if_false,
            if_pos hlt, List.head?_cons, List.tail_cons] at h
          have hlen := addNotesGo_length rs _ _ _ _ _ _ _ h
          have := ih _ _ _ _ _ _ _ h rfl
          simp only at this hlen
          constructor
          · intro hfull
            rcases this.1 hfull with h1 | h1
            · exact Or.inl h1
            · left; rw [h1, hlen]; exact hlt
          · exact this.2
    · cases ns with
      | nil => simp [addNotesGo, hf, hlt] at h
      | cons n ns =>
        cases ds with
        | nil => simp [addNotesGo, hf, hlt] at h
        | cons d ds =>
          simp [addNotesGo, hf, hlt] at h
          obtain ⟨hb2, _, hrs2, _⟩ := h
          constructor
          · intro hfull; rw [← hb2] at hfull; cases hfull
          · intro _
            rw [← hb2]
            refine ⟨by simpa using hlt, rs, ?_⟩
            rw [← hrs2]

/-- When the loop fills the bar, the note and dynamic of the boundary
triple are committed and simultaneously kept at the front of the
remainder, the committed rhythm is the original rhythm of some melody
element minus the overflow, and the remainder's head rhythm is exactly
the overflow. -/
lemma addNotesGo_overflow (rs : List ℚ) :
    ∀ b ns ds b2 ns2 rs2 ds2,
      addNotesGo b ns ds rs = .ok (b2, ns2, rs2, ds2) →
      b.full = false → b2.full = true →
      ∃ n d r rest,
        ns2.head? = some n ∧ ds2.head? = some d ∧
        b2.notes.getLast? = some n ∧ b2.dynamics.getLast? = some d ∧
        r ∈ rs ∧
        b2.rhythms.getLast? =
          some (r - (b2.current_beat - b2.length)) ∧
        rs2 = (b2.current_beat - b2.length) :: rest := by
  induction rs with
  | nil =>
    intro b ns ds b2 ns2 rs2 ds2 h hf hfull
    simp [addNotesGo] at h
    rw [← h.1] at hfull; rw [hf] at hfull; cases hfull
  | cons r rs ih =>
    intro b ns ds b2 ns2 rs2 ds2 h hf hfull
    by_cases hlt : b.current_beat + r < b.length
    · cases ns with
      | nil => simp [addNotesGo, hf, hlt] at h
      | cons n ns =>
        cases ds with
        | nil => simp [addNotesGo, hf, hlt] at h
        | cons d ds =>
          simp only [addNotesGo, hf, Bool.false_eq_true, if_false,
            if_pos hlt, List.head?_cons, List.tail_cons] at h
          obtain ⟨n2, d2, r2, rest, hh⟩ := ih _ _ _ _ _ _ _ h rfl hfull
          exact ⟨n2, d2, r2, rest, hh.1, hh.2.1, hh.2.2.1, hh.2.2.2.1,
            List.mem_cons_of_mem r hh.2.2.2.2.1, hh.2.2.2.2.2⟩
    · cases ns with
      | nil => simp [addNotesGo, hf, hlt] at h
      | cons n ns =>
        cases ds with
        | nil => simp [addNotesGo, hf, hlt] at h
        | cons d ds =>
          simp [addNotesGo, hf, hlt] at h
          obtain ⟨hb2, hns2, hrs2, hds2⟩ := h
          subst hb2; subst hns2; subst hrs2; subst hds2
          refine ⟨n, d, r, rs, rfl, rfl, ?_, ?_,
            List.mem_cons_self r rs, ?_, ?_⟩
          · simp [List.getLast?_concat]
          · simp [List.getLast?_concat]
          · simp [List.getLast?_concat]
          · rfl

/-- Unfolding `add_notes` to its loop: the wrapper only copies the
melody's tempo and instrument into the bar before looping. -/
lemma add_notes_eq_go (b : BarState) (m : MelodyState)
    (b2 : BarState) (m2 : MelodyState)
    (h : add_notes b m = .ok (b2, m2)) :
    addNotesGo { b with tempo := m.tempo, instrument := m.instrument }
      m.notes m.dynamics m.rhythms =
      .ok (b2, m2.notes, m2.rhythms, m2.dynamics) := by
  unfold add_notes at h
  cases hgo : addNotesGo { b with tempo := m.tempo, instrument := m.instrument } m.notes m.dynamics m.rhythms with
  | error e => exact absurd h (by simp [hgo])
  | ok v =>
    obtain ⟨vb, vns, vrs, vds⟩ := v
    simp only [hgo, Except.ok.injEq, Prod.mk.injEq] at h
    obtain ⟨hb, hm⟩ := h
    subst hb
    subst hm
    simp

/-! ## Tempo scaling: round-trip accuracy -/

/-- Rounding to three decimal places moves a value by at most `1/2000`. -/
lemma round3_close (q : ℚ) : |round3 q - q| ≤ 1 / 2000 := by
  have h := abs_sub_round (q * 1000)
  have heq : round3 q - q = -((q * 1000 - (round (q * 1000) : ℤ)) / 1000) := by
    unfold round3
    ring
  rw [heq, abs_neg, abs_div]
  have h1000 : |(1000 : ℚ)| = 1000 := by norm_num
  rw [h1000]
  rw [div_le_div_iff (by norm_num) (by norm_num : (0:ℚ) < 2000)]
  nlinarith [h]

/-- Concrete final state of the spec's bar-filling scenario. -/
def exBarFull : BarState :=
  { meter := some (4, 1)
    tempo := 60
    length := 4
    instrument := "Violin"
    current_beat := 9/2
    full := true
    notes := ["A4", "B4", "C4", "D4"]
    rhythms := [1, 1, 1, 1]
    dynamics := [100, 100, 100, 100] }

/-- Concrete remainder melody of the spec's bar-filling scenario. -/
def exRemainder : MelodyState :=
  { tempo := 60
    instrument := "Violin"
    notes := ["D4"]
    rhythms := [1/2]
    dynamics := [100] }

/-- Concrete final state of the exact-landing run. -/
def exBarExact : BarState :=
  { meter := some (4, 1)
    tempo := 60
    length := 4
    instrument := "Violin"
    current_beat := 4
    full := true
    notes := ["E4", "F4", "G4"]
    rhythms := [1, 1, 2]
    dynamics := [90, 90, 90] }

/-- Concrete remainder melody of the exact-landing run. -/
def exRemainderExact : MelodyState :=
  { tempo := 60
    instrument := "Violin"
    notes := ["G4"]
    rhythms := [0]
    dynamics := [90] }

/-- C4 (counterexample): at tempo 240 the duration 0.002 scales forward
to `round3(0.0005) = 0.001` and reverts to `0.004`, an error of `0.002`,
so the claimed `0.001` round-trip accuracy fails inside (0, 240]. -/
theorem scale_to_tempo_roundtrip_false :
    (0 < (240 : ℚ) ∧ (240 : ℚ) ≤ 240 ∧ (0 : ℚ) ≤ 1/500) ∧
    scale_to_tempo 240 (scale_to_tempo 240 (1/500) false) true = 1/250 ∧
    ¬ |(1/250 : ℚ) - 1/500| ≤ 1/1000 := by
  refine ⟨⟨by norm_num, by norm_num, by norm_num⟩, ?_, ?_⟩
  · norm_num [scale_to_tempo, _scale, round3, round_eq]
  · rw [abs_of_nonneg (by norm_num)]
    norm_num

/-- C4 (amended): the forward/revert round trip of `scale_to_tempo` is
accurate to `0.0025` for every tempo in (0, 240] and to the claimed
`0.001` only when the tempo stays at or below the reference tempo 60
(each rounding step moves the value by at most `0.0005`, and the revert
step magnifies the forward error by `tempo/60`). -/
theorem scale_to_tempo_roundtrip (t x : ℚ) (ht : 0 < t) (ht240 : t ≤ 240)
    (hx : 0 ≤ x) :
    |scale_to_tempo t (scale_to_tempo t x false) true - x| ≤ 1/400 ∧
    (t ≤ 60 →
      |scale_to_tempo t (scale_to_tempo t x false) true - x| ≤ 1/1000) := by
  have hd : (0 : ℚ) < 60 / t := by positivity
  have hkey : ∀ c : ℚ, t ≤ c →
      |scale_to_tempo t (scale_to_tempo t x false) true - x| ≤
        1/2000 + (c/60) * (1/2000) := by
    intro c hc
    have hfd : scale_to_tempo t x false = round3 (x * (60 / t)) := rfl
    have hrv : scale_to_tempo t (round3 (x * (60 / t))) true =
        round3 (round3 (x * (60 / t)) / (60 / t)) := rfl
    rw [hfd, hrv]
    have h1 := round3_close (round3 (x * (60 / t)) / (60 / t))
    have h2 := round3_close (x * (60 / t))
    have h3 : |round3 (x * (60 / t)) / (60 / t) - x| ≤
        (1/2000) / (60 / t) := by
      have heq : round3 (x * (60 / t)) / (60 / t) - x =
          (round3 (x * (60 / t)) - x * (60 / t)) / (60 / t) := by
        field_simp
        ring
      rw [heq, abs_div, abs_of_pos hd]
      gcongr
    have h4 : (1/2000 : ℚ) / (60 / t) ≤ (c/60) * (1/2000) := by
      have e1 : (1/2000 : ℚ) / (60 / t) = t / 120000 := by
        field_simp
        norm_num
      have e2 : (c/60 : ℚ) * (1/2000) = c / 120000 := by ring
      rw [e1, e2]
      gcongr
    calc |round3 (round3 (x * (60 / t)) / (60 / t)) - x|
        ≤ |round3 (round3 (x * (60 / t)) / (60 / t)) -
              round3 (x * (60 / t)) / (60 / t)| +
            |round3 (x * (60 / t)) / (60 / t) - x| := abs_sub_le _ _ _
      _ ≤ 1/2000 + (1/2000) / (60 / t) := add_le_add h1 h3
      _ ≤ 1/2000 + (c/60) * (1/2000) := add_le_add_left h4 _
  constructor
  · have hb := hkey 240 ht240
    calc |scale_to_tempo t (scale_to_tempo t x false) true - x|
        ≤ 1/2000 + (240/60) * (1/2000) := hb
      _ = 1/400 := by norm_num
  · intro h60
    have hb := hkey 60 h60
    calc |scale_to_tempo t (scale_to_tempo t x false) true - x|
        ≤ 1/2000 + (60/60) * (1/2000) := hb
      _ = 1/1000 := by norm_num

/-- C4 (witness): the amended bound instantiated at tempo 60 and
duration 1, where the round trip is exact. -/
theorem scale_to_tempo_roundtrip_witness :
    (0 < (60 : ℚ) ∧ (60 : ℚ) ≤ 240 ∧ (0 : ℚ) ≤ 1) ∧
    (|scale_to_tempo 60 (scale_to_tempo 60 1 false) true - 1| ≤ 1/400 ∧
      ((60 : ℚ) ≤ 60 →
        |scale_to_tempo 60 (scale_to_tempo 60 1 false) true - 1| ≤
          1/1000)) :=
  ⟨⟨by norm_num, by norm_num, by norm_num⟩,
    scale_to_tempo_roundtrip 60 1 (by norm_num) (by norm_num)
      (by norm_num)⟩

/-! ## Claim theorems -/

/-- C1 (counterexample): `Bar(meter=(4,4), tempo=60.0)` does not yield
`length == 4.0`.  With the denominator as the Python `int` `4` the
constructor propagates `scale_to_tempo`'s `TypeError`; with it as the
float `4.0` the bar is built but its length is `4 * 4.0 = 16.0`, not
`4.0`.  Either way the claimed scenario premise is false. -/
theorem bar_meter44_length_false :
    Bar.init 4 (.int 4) 60 =
      .error "incorrect input type. must be single float or list of floats!" ∧
    Except.map BarState.length (Bar.init 4 (.float 4) 60) = .ok 16 ∧
    (16 : ℚ) ≠ 4 := by
  refine ⟨?_, ?_, by norm_num⟩
  · norm_num [Bar.init, is_valid, BEATS, scale_to_tempo_num, PyNum.toQ]
  · norm_num [Bar.init, is_valid, BEATS, scale_to_tempo_num,
      scale_to_tempo, _scale, round3, round_eq, PyNum.toQ, Except.map]

/-- C1 (amended): with the beat unit given as the symbolic quarter-note
duration `1.0` — the only reading under which the bar's length is 4.0 —
the scenario holds: `add_notes` on the melody with rhythms
`[1, 1, 1, 1.5]` commits A, B, C with their rhythms unchanged, commits D
with rhythm `1.0` (cut by the `0.5` overflow), marks the bar full, and
returns a remainder containing exactly the note D with rhythm `0.5`. -/
theorem bar_scenario_beat_unit_one :
    Bar.init 4 (.float 1) 60 = .ok exBar ∧ exBar.length = 4 ∧
    add_notes exBar exMelody = .ok (exBarFull, exRemainder) ∧
    exBarFull.notes = ["A4", "B4", "C4", "D4"] ∧
    exBarFull.rhythms = [1, 1, 1, 1] ∧
    exBarFull.full = true ∧
    exRemainder.notes = ["D4"] ∧ exRemainder.rhythms = [1/2] ∧
    exRemainder.dynamics = [100] := by
  refine ⟨?_, by norm_num [exBar], ?_, rfl, rfl, rfl, rfl, rfl, rfl⟩
  · norm_num [Bar.init, is_valid, BEATS, scale_to_tempo_num,
      scale_to_tempo, _scale, round3, round_eq, PyNum.toQ, exBar]
  · norm_num [add_notes, addNotesGo, exBar, exMelody, exBarFull,
      exRemainder]

/-- C2: for any melody fed to `add_notes` on a bar whose committed
rhythms so far sum to its `current_beat` (true of every freshly
constructed bar), the call never changes `length`, and if the call
leaves the bar full the committed rhythms sum to exactly `length`. -/
theorem add_notes_full_sum_eq_length (b : BarState) (m : MelodyState)
    (b2 : BarState) (m2 : MelodyState)
    (h : add_notes b m = .ok (b2, m2)) (hfull : b.full = false)
    (hsum : b.rhythms.sum = b.current_beat) :
    b2.length = b.length ∧
    (b2.full = true → b2.rhythms.sum = b2.length) := by
  have hgo := add_notes_eq_go b m b2 m2 h
  have hlen := addNotesGo_length m.rhythms _ _ _ _ _ _ _ hgo
  have hsum2 := addNotesGo_sum m.rhythms _ _ _ _ _ _ _ hgo hfull
  simp only at hlen hsum2
  refine ⟨hlen, ?_⟩
  intro hf2
  have hs := hsum2.2 hf2
  rw [hs, hsum]
  ring

/-- C2 (witness): the scenario run fills the bar and its committed
rhythms `[1, 1, 1, 1]` sum to the length `4`. -/
theorem add_notes_full_sum_eq_length_witness :
    (add_notes exBar exMelody = .ok (exBarFull, exRemainder) ∧
      exBar.full = false ∧ exBar.rhythms.sum = exBar.current_beat) ∧
    (exBarFull.length = exBar.length ∧
      (exBarFull.full = true → exBarFull.rhythms.sum = exBarFull.length)) :=
  ⟨⟨by norm_num [add_notes, addNotesGo, exBar, exMelody, exBarFull,
      exRemainder], rfl, by simp [exBar]⟩,
    add_notes_full_sum_eq_length exBar exMelody exBarFull exRemainder
      (by norm_num [add_notes, addNotesGo, exBar, exMelody, exBarFull,
        exRemainder])
      rfl (by simp [exBar])⟩

/-- C3 (counterexample): after the scenario call that fills the bar,
`current_beat` is `4.5` against a length of `4.0` — it exceeds `length`
by the whole `0.5` overflow, far beyond floating-point tolerance. -/
theorem add_notes_current_beat_exceeds :
    Except.map (fun p => ((Prod.fst p).current_beat, (Prod.fst p).length))
        (add_notes exBar exMelody) = .ok (9/2, 4) ∧
    ¬ ((9/2 : ℚ) - 4 ≤ 1/1000) := by
  constructor
  · norm_num [add_notes, addNotesGo, exBar, exMelody, Except.map]
  · norm_num

/-- C3 (amended): while the bar is not full, `current_beat` stays
strictly below `length` after any `add_notes` call; the call that marks
it full leaves `current_beat` at or above `length`, exceeding it by
exactly the overflow stored at the head of the returned remainder's
rhythms (which can be any fraction of the boundary rhythm, not merely a
floating-point tolerance). -/
theorem add_notes_current_beat_bound (b : BarState) (m : MelodyState)
    (b2 : BarState) (m2 : MelodyState)
    (h : add_notes b m = .ok (b2, m2)) (hfull : b.full = false)
    (hcb : b.current_beat < b.length) :
    (b2.full = false → b2.current_beat < b2.length) ∧
    (b2.full = true → b2.length ≤ b2.current_beat ∧
      m2.rhythms.head? = some (b2.current_beat - b2.length)) := by
  have hgo := add_notes_eq_go b m b2 m2 h
  have hlen := addNotesGo_length m.rhythms _ _ _ _ _ _ _ hgo
  have hbeat := addNotesGo_beat m.rhythms _ _ _ _ _ _ _ hgo hfull
  simp only at hlen hbeat
  constructor
  · intro hf2
    rcases hbeat.1 hf2 with h1 | h1
    · exact h1
    · rw [h1, hlen]; exact hcb
  · intro hf2
    obtain ⟨hle, rest, hrs⟩ := hbeat.2 hf2
    exact ⟨hle, by rw [hrs]; rfl⟩

/-- C3 (witness): the amended bound instantiated on the scenario run,
where the filling call leaves `current_beat = 4.5 = length + 0.5`. -/
theorem add_notes_current_beat_bound_witness :
    (add_notes exBar exMelody = .ok (exBarFull, exRemainder) ∧
      exBar.full = false ∧ exBar.current_beat < exBar.length) ∧
    ((exBarFull.full = false →
        exBarFull.current_beat < exBarFull.length) ∧
      (exBarFull.full = true →
        exBarFull.length ≤ exBarFull.current_beat ∧
        exRemainder.rhythms.head? =
          some (exBarFull.current_beat - exBarFull.length))) :=
  ⟨⟨by norm_num [add_notes, addNotesGo, exBar, exMelody, exBarFull,
      exRemainder], rfl, by norm_num [exBar]⟩,
    add_notes_current_beat_bound exBar exMelody exBarFull exRemainder
      (by norm_num [add_notes, addNotesGo, exBar, exMelody, exBarFull,
        exRemainder])
      rfl (by norm_num [exBar])⟩

/-- C5: `generate_rhythms` consults the process-wide `random` module —
`scale_limit`, reached through `_get_repetition_limit`, draws its
repetition limit from it — so two sessions with identical owned
(seeded) sources but different global-module states produce different
rhythm sequences, refuting "no generation path consults process-wide
global random state". -/
theorem generate_rhythms_global_rng_divergence :
    Except.map Prod.fst
        (generate_rhythms 15 none none
          ⟨fun n => if n % 3 = 1 then 0 else if n % 3 = 2 then 2 else n, 0⟩
          ⟨fun _ => 0, 0⟩) ≠
      Except.map Prod.fst
        (generate_rhythms 15 none none
          ⟨fun n => if n % 3 = 1 then 0 else if n % 3 = 2 then 2 else n, 0⟩
          ⟨fun _ => 2, 0⟩) := by
  simp [generate_rhythms, rhythm_palette, genRhythmsLoop, randint, choice,
    Rng.next, Rng.draw, appendRun, _get_repetition_limit, scale_limit,
    RHYTHMS, BASE_TEMPO, Except.map]

/-- C6: in the whole band `1 ≤ total ≤ 10`, `scale_limit` returns 0 —
not a value in `[1, 3]` and below the claimed minimum of 1 — because the
source assigns its `randint(1, 3)` draw to the parameter
`given_total_items` instead of to `rep_limit`. -/
theorem scale_limit_small_band_zero (total : ℕ) (g : Rng)
    (h1 : 1 ≤ total) (h2 : total ≤ 10) :
    Except.map Prod.fst (scale_limit total g) = .ok 0 := by
  unfold scale_limit
  rw [if_neg (by omega), if_pos h2]
  rfl

/-- C6 (witness): `scale_limit(5)` returns 0. -/
theorem scale_limit_small_band_zero_witness :
    1 ≤ 5 ∧ 5 ≤ 10 ∧
    Except.map Prod.fst (scale_limit 5 ⟨fun _ => 0, 0⟩) = .ok 0 :=
  ⟨by norm_num, by norm_num,
    scale_limit_small_band_zero 5 ⟨fun _ => 0, 0⟩ (by norm_num)
      (by norm_num)⟩

/-- C8: `clear()` resets meter, tempo, length, instrument, current_beat
and the three committed lists — but it never assigns the `full` flag, so
a full bar remains `full` after `clear()`, contradicting both the claim
and the method's own "Clear all fields" docstring. -/
theorem clear_resets_fields_but_keeps_full :
    ∀ b : BarState,
      (BarState.clear b).full = b.full ∧
      (BarState.clear b).meter = none ∧
      (BarState.clear b).tempo = 0 ∧
      (BarState.clear b).length = 0 ∧
      (BarState.clear b).instrument = "" ∧
      (BarState.clear b).current_beat = 0 ∧
      (BarState.clear b).notes = [] ∧
      (BarState.clear b).rhythms = [] ∧
      (BarState.clear b).dynamics = [] :=
  fun _ => ⟨rfl, rfl, rfl, rfl, rfl, rfl, rfl, rfl, rfl⟩

/-- C10: whenever `add_notes` fills the bar, the boundary note and its
dynamic are committed *and* kept at the front of the returned remainder;
the remainder's head rhythm is the overflow
`current_beat - length`, the committed boundary rhythm is the melody's
original rhythm minus that overflow, and on an exact landing
(overflow 0) the note is committed with its full rhythm while remaining
at the front of the remainder with rhythm `0.0`. -/
theorem add_notes_overflow_retains_note (b : BarState) (m : MelodyState)
    (b2 : BarState) (m2 : MelodyState)
    (h : add_notes b m = .ok (b2, m2)) (hfull : b.full = false)
    (hf2 : b2.full = true) :
    ∃ n d r rest,
      m2.notes.head? = some n ∧ m2.dynamics.head? = some d ∧
      b2.notes.getLast? = some n ∧ b2.dynamics.getLast? = some d ∧
      r ∈ m.rhythms ∧
      b2.rhythms.getLast? = some (r - (b2.current_beat - b2.length)) ∧
      m2.rhythms = (b2.current_beat - b2.length) :: rest ∧
      (b2.current_beat = b2.length →
        b2.rhythms.getLast? = some r ∧ m2.rhythms.head? = some 0) := by
  have hgo := add_notes_eq_go b m b2 m2 h
  obtain ⟨n, d, r, rest, h1, h2, h3, h4, h5, h6, h7⟩ :=
    addNotesGo_overflow m.rhythms _ _ _ _ _ _ _ hgo hfull hf2
  refine ⟨n, d, r, rest, h1, h2, h3, h4, h5, h6, h7, ?_⟩
  intro heq
  constructor
  · rw [h6, heq]
    norm_num
  · rw [h7, heq]
    simp

/-- C10 (witness): the exact-landing run — rhythms `[1, 1, 2]` against
length 4 — commits G with its full rhythm 2 and returns a remainder
whose head is the same note G with rhythm `0.0`. -/
theorem add_notes_overflow_retains_note_witness :
    (add_notes exBar exMelodyExact = .ok (exBarExact, exRemainderExact) ∧
      exBar.full = false ∧ exBarExact.full = true) ∧
    (∃ n d r rest,
      exRemainderExact.notes.head? = some n ∧
      exRemainderExact.dynamics.head? = some d ∧
      exBarExact.notes.getLast? = some n ∧
      exBarExact.dynamics.getLast? = some d ∧
      r ∈ exMelodyExact.rhythms ∧
      exBarExact.rhythms.getLast? =
        some (r - (exBarExact.current_beat - exBarExact.length)) ∧
      exRemainderExact.rhythms =
        (exBarExact.current_beat - exBarExact.length) :: rest ∧
      (exBarExact.current_beat = exBarExact.length →
        exBarExact.rhythms.getLast? = some r ∧
        exRemainderExact.rhythms.head? = some 0)) :=
  ⟨⟨by norm_num [add_notes, addNotesGo, exBar, exMelodyExact, exBarExact,
      exRemainderExact], rfl, rfl⟩,
    add_notes_overflow_retains_note exBar exMelodyExact exBarExact
      exRemainderExact
      (by norm_num [add_notes, addNotesGo, exBar, exMelodyExact,
        exBarExact, exRemainderExact])
      rfl rfl⟩

/-! ## Chord rendering (C9) -/

/-- Every event produced by the `chord_to_notes` loop carries the shared
velocity and the shared interval, one event per member note. -/
lemma chordNotesGo_spec (d : ℤ) (s e : ℚ) :
    ∀ l ms, chordNotesGo d s e l = .ok ms →
      ms.length = l.length ∧
      ∀ n ∈ ms, n.velocity = d ∧ n.start = s ∧ n.«end» = e := by
  intro l
  induction l with
  | nil =>
    intro ms h
    simp only [chordNotesGo, Except.ok.injEq] at h
    subst h
    simp
  | cons x xs ih =>
    intro ms h
    simp only [chordNotesGo] at h
    cases hx : note_name_to_MIDI_num x with
    | error e2 => rw [hx] at h; cases h
    | ok p =>
      rw [hx] at h
      cases hrec : chordNotesGo d s e xs with
      | error e2 => rw [hrec] at h; cases h
      | ok ms2 =>
        rw [hrec] at h
        simp only [Except.ok.injEq] at h
        subst h
        obtain ⟨hlen, hall⟩ := ih ms2 hrec
        refine ⟨by simp [hlen], ?_⟩
        intro n hn
        rcases List.mem_cons.mp hn with hn | hn
        · subst hn; exact ⟨rfl, rfl, rfl⟩
        · exact hall n hn

/-- Concrete C-major chord used to witness the chord renderer. -/
def exChord : ChordState :=
  { tempo := 60
    instrument := "Violin"
    notes := ["C4", "E4", "G4"]
    rhythm := 1
    dynamic := 100 }

/-- Events the renderer emits for `exChord` at cursor time 2. -/
def exChordNotes : List MidiNote :=
  [{ velocity := 100, pitch := 60, start := 2, «end» := 3 },
   { velocity := 100, pitch := 64, start := 2, «end» := 3 },
   { velocity := 100, pitch := 67, start := 2, «end» := 3 }]

/-- C9: rendering a chord at cursor time `t` emits one event per member
note, all sharing the interval `[t, t + rhythm]` and the chord's dynamic
as velocity, and returns `t + rhythm` as the next cursor time — the
cursor advances by the rhythm exactly once for the whole chord. -/
theorem chord_to_notes_shared_interval (c : ChordState)
    (ns : List MidiNote) (t t2 : ℚ)
    (h : chord_to_notes c t = .ok (ns, t2)) :
    t2 = t + c.rhythm ∧ ns.length = c.notes.length ∧
    ∀ n ∈ ns, n.velocity = c.dynamic ∧ n.start = t ∧
      n.«end» = t + c.rhythm := by
  unfold chord_to_notes at h
  cases hx : chordNotesGo c.dynamic t (t + c.rhythm) c.notes with
  | error e => exact absurd h (by simp [hx])
  | ok ms =>
    simp only [hx, Except.ok.injEq, Prod.mk.injEq] at h
    obtain ⟨hms, ht2⟩ := h
    subst hms
    obtain ⟨hlen, hall⟩ := chordNotesGo_spec c.dynamic t (t + c.rhythm)
      c.notes _ hx
    exact ⟨ht2.symm, hlen, hall⟩

/-- C9 (witness): the C-major chord rendered at cursor time 2 with
rhythm 1 — three events on `[2, 3]` at velocity 100, next cursor 3. -/
theorem chord_to_notes_shared_interval_witness :
    chord_to_notes exChord 2 = .ok (exChordNotes, 3) ∧
    ((3 : ℚ) = 2 + exChord.rhythm ∧
      exChordNotes.length = exChord.notes.length ∧
      ∀ n ∈ exChordNotes, n.velocity = exChord.dynamic ∧ n.start = 2 ∧
        n.«end» = 2 + exChord.rhythm) := by
  have h1 : list_index "C4" NOTES = some 39 := by decide
  have h2 : list_index "E4" NOTES = some 43 := by decide
  have h3 : list_index "G4" NOTES = some 46 := by decide
  have hrun : chord_to_notes exChord 2 = .ok (exChordNotes, 3) := by
    norm_num [chord_to_notes, chordNotesGo, note_name_to_MIDI_num,
      MIN_MIDI_NOTE, exChord, exChordNotes, h1, h2, h3]
  exact ⟨hrun,
    chord_to_notes_shared_interval exChord exChordNotes 2 3 hrun⟩

/-! ## Generator lengths and palettes (C7) -/

/-- The palette actually observable in `generate_rhythms`' output: the
chosen rhythm source, element-wise tempo-scaled exactly when a tempo is
supplied that differs from `BASE_TEMPO`. -/
def scaled_rhythm_palette (tempo : Option ℚ) (source : Option (List ℚ)) :
    List ℚ :=
  match tempo with
  | some t =>
    if t ≠ BASE_TEMPO then
      (rhythm_palette source).map (fun r => scale_to_tempo t r false)
    else rhythm_palette source
  | none => rhythm_palette source

/-- The effective rhythm palette is never empty. -/
lemma rhythm_palette_ne_nil (source : Option (List ℚ)) :
    rhythm_palette source ≠ [] := by
  cases source with
  | none => simp [rhythm_palette, RHYTHMS]
  | some s => cases s <;> simp [rhythm_palette, RHYTHMS]

/-- `random.choice` on a non-empty list returns one of its elements. -/
lemma choice_mem {α : Type} (l : List α) (d : α) (g : Rng) (h : l ≠ []) :
    (choice l d g).1 ∈ l := by
  unfold choice
  simp only
  have hl : 0 < l.length := List.length_pos.mpr h
  rw [List.getD_eq_getElem l d (Nat.mod_lt _ hl)]
  exact List.getElem_mem _

/-- `random.randint(a, b)` returns at least `a`. -/
lemma randint_fst_le (a b : ℕ) (g : Rng) : a ≤ (randint a b g).1 :=
  Nat.le_add_right a _

/-- Length of a truncated repetition run. -/
lemma appendRun_length {α : Type} (acc : List α) (x : α)
    (reps total : ℕ) :
    (appendRun acc x reps total).length =
      acc.length + min reps (total - acc.length) := by
  simp [appendRun]

/-- A truncated repetition run only adds copies of the chosen value. -/
lemma appendRun_mem {α : Type} (acc : List α) (x : α) (reps total : ℕ)
    (y : α) (hy : y ∈ appendRun acc x reps total) : y ∈ acc ∨ y = x := by
  unfold appendRun at hy
  rcases List.mem_append.mp hy with h | h
  · exact Or.inl h
  · exact Or.inr (List.eq_of_mem_replicate h)

/-- `scale_limit` only fails on a total below 1. -/
lemma scale_limit_isOk (total : ℕ) (g : Rng) (h : 1 ≤ total) :
    ∃ p, scale_limit total g = .ok p := by
  unfold scale_limit
  rw [if_neg (by omega)]
  split_ifs <;> exact ⟨_, rfl⟩

/-- `_get_repetition_limit` succeeds on every total at least 1. -/
lemma grl_isOk (total : ℕ) (g : Rng) (h : 1 ≤ total) :
    ∃ p, _get_repetition_limit total g = .ok p := by
  obtain ⟨p, hp⟩ := scale_limit_isOk total g h
  exact ⟨(max p.1 2, p.2), by simp [_get_repetition_limit, hp, Except.map]⟩

/-- With fuel at least the number of missing elements, the rhythm loop
returns a list of exactly the target length. -/
lemma genRhythmsLoop_length (pal : List ℚ) (total : ℕ) :
    ∀ fuel (own glob : Rng) (acc out : List ℚ) (o2 g2 : Rng),
      genRhythmsLoop pal total fuel own glob acc = .ok (out, o2, g2) →
      acc.length ≤ total → total ≤ acc.length + fuel →
      out.length = total := by
  intro fuel
  induction fuel with
  | zero =>
    intro own glob acc out o2 g2 h hle hge
    simp only [genRhythmsLoop, Except.ok.injEq, Prod.mk.injEq] at h
    rw [← h.1]
    omega
  | succ fuel ih =>
    intro own glob acc out o2 g2 h hle hge
    by_cases htot : total ≤ acc.length
    · simp only [genRhythmsLoop, if_pos htot, Except.ok.injEq,
        Prod.mk.injEq] at h
      rw [← h.1]
      omega
    · simp only [genRhythmsLoop, if_neg htot] at h
      by_cases hb : (randint 1 2 (choice pal 0 own).2).1 = 1
      · rw [if_pos hb] at h
        cases hgrl : _get_repetition_limit total glob with
        | error e => rw [hgrl] at h; cases h
        | ok p =>
          obtain ⟨limit, glob2⟩ := p
          rw [hgrl] at h
          have hreps :=
            randint_fst_le 1 limit (randint 1 2 (choice pal 0 own).2).2
          refine ih _ _ _ _ _ _ h ?_ ?_ <;> rw [appendRun_length] <;>
            omega
      · rw [if_neg hb] at h
        refine ih _ _ _ _ _ _ h ?_ ?_ <;> simp <;> omega

/-- Every element the rhythm loop appends comes from the palette. -/
lemma genRhythmsLoop_mem (pal : List ℚ) (total : ℕ) (hpal : pal ≠ []) :
    ∀ fuel (own glob : Rng) (acc out : List ℚ) (o2 g2 : Rng),
      genRhythmsLoop pal total fuel own glob acc = .ok (out, o2, g2) →
      (∀ x ∈ acc, x ∈ pal) → ∀ x ∈ out, x ∈ pal := by
  intro fuel
  induction fuel with
  | zero =>
    intro own glob acc out o2 g2 h hacc
    simp only [genRhythmsLoop, Except.ok.injEq, Prod.mk.injEq] at h
    rw [← h.1]
    exact hacc
  | succ fuel ih =>
    intro own glob acc out o2 g2 h hacc
    by_cases htot : total ≤ acc.length
    · simp only [genRhythmsLoop, if_pos htot, Except.ok.injEq,
        Prod.mk.injEq] at h
      rw [← h.1]
      exact hacc
    · simp only [genRhythmsLoop, if_neg htot] at h
      by_cases hb : (randint 1 2 (choice pal 0 own).2).1 = 1
      · rw [if_pos hb] at h
        cases hgrl : _get_repetition_limit total glob with
        | error e => rw [hgrl] at h; cases h
        | ok p =>
          obtain ⟨limit, glob2⟩ := p
          rw [hgrl] at h
          refine ih _ _ _ _ _ _ h ?_
          intro y hy
          rcases appendRun_mem _ _ _ _ _ hy with h1 | h1
          · exact hacc y h1
          · rw [h1]
            exact choice_mem pal 0 own hpal
      · rw [if_neg hb] at h
        refine ih _ _ _ _ _ _ h ?_
        intro y hy
        rcases List.mem_append.mp hy with h1 | h1
        · exact hacc y h1
        · rw [List.mem_singleton.mp h1]
          exact choice_mem pal 0 own hpal

/-- A generated dynamic is a palette velocity, or a rest when rests are
allowed. -/
lemma generate_dynamic_cases (ar : Bool) (g : Rng) :
    (generate_dynamic ar g).1 ∈ DYNAMICS ∨
      (ar = true ∧ (generate_dynamic ar g).1 = REST) := by
  unfold generate_dynamic
  cases ar with
  | false =>
    simp only [Bool.false_eq_true, if_false]
    exact Or.inl (choice_mem DYNAMICS 0 g (by simp [DYNAMICS]))
  | true =>
    simp only [if_true]
    by_cases hb : (randint 0 1 g).1 = 1
    · rw [if_pos hb]
      exact Or.inr ⟨by simp, rfl⟩
    · rw [if_neg hb]
      exact Or.inl (choice_mem DYNAMICS 0 _ (by simp [DYNAMICS]))

/-- With fuel at least the number of missing elements, the dynamics loop
returns a list of exactly the target length. -/
lemma genDynamicsLoop_length (ar : Bool) (total : ℕ) :
    ∀ fuel (own glob : Rng) (acc out : List ℤ) (o2 g2 : Rng),
      genDynamicsLoop ar total fuel own glob acc = .ok (out, o2, g2) →
      acc.length ≤ total → total ≤ acc.length + fuel →
      out.length = total := by
  intro fuel
  induction fuel with
  | zero =>
    intro own glob acc out o2 g2 h hle hge
    simp only [genDynamicsLoop, Except.ok.injEq, Prod.mk.injEq] at h
    rw [← h.1]
    omega
  | succ fuel ih =>
    intro own glob acc out o2 g2 h hle hge
    by_cases htot : total ≤ acc.length
    · simp only [genDynamicsLoop, if_pos htot, Except.ok.injEq,
        Prod.mk.injEq] at h
      rw [← h.1]
      omega
    · simp only [genDynamicsLoop, if_neg htot] at h
      by_cases hb : (randint 1 2 (generate_dynamic ar own).2).1 = 1
      · rw [if_pos hb] at h
        cases hgrl : _get_repetition_limit total glob with
        | error e => rw [hgrl] at h; cases h
        | ok p =>
          obtain ⟨limit, glob2⟩ := p
          rw [hgrl] at h
          have hreps := randint_fst_le 1
            (if (generate_dynamic ar own).1 ≠ REST then limit else 2)
            (randint 1 2 (generate_dynamic ar own).2).2
          refine ih _ _ _ _ _ _ h ?_ ?_ <;> rw [appendRun_length] <;>
            omega
      · rw [if_neg hb] at h
        refine ih _ _ _ _ _ _ h ?_ ?_ <;> simp <;> omega

/-- Every element the dynamics loop appends is a palette velocity or,
when rests are allowed, the rest value. -/
lemma genDynamicsLoop_mem (ar : Bool) (total : ℕ) :
    ∀ fuel (own glob : Rng) (acc out : List ℤ) (o2 g2 : Rng),
      genDynamicsLoop ar total fuel own glob acc = .ok (out, o2, g2) →
      (∀ x ∈ acc, x ∈ DYNAMICS ∨ (ar = true ∧ x = REST)) →
      ∀ x ∈ out, x ∈ DYNAMICS ∨ (ar = true ∧ x = REST) := by
  intro fuel
  induction fuel with
  | zero =>
    intro own glob acc out o2 g2 h hacc
    simp only [genDynamicsLoop, Except.ok.injEq, Prod.mk.injEq] at h
    rw [← h.1]
    exact hacc
  | succ fuel ih =>
    intro own glob acc out o2 g2 h hacc
    by_cases htot : total ≤ acc.length
    · simp only [genDynamicsLoop, if_pos htot, Except.ok.injEq,
        Prod.mk.injEq] at h
      rw [← h.1]
      exact hacc
    · simp only [genDynamicsLoop, if_neg htot] at h
      by_cases hb : (randint 1 2 (generate_dynamic ar own).2).1 = 1
      · rw [if_pos hb] at h
        cases hgrl : _get_repetition_limit total glob with
        | error e => rw [hgrl] at h; cases h
        | ok p =>
          obtain ⟨limit, glob2⟩ := p
          rw [hgrl] at h
          refine ih _ _ _ _ _ _ h ?_
          intro y hy
          rcases appendRun_mem _ _ _ _ _ hy with h1 | h1
          · exact hacc y h1
          · rw [h1]
            exact generate_dynamic_cases ar own
      · rw [if_neg hb] at h
        refine ih _ _ _ _ _ _ h ?_
        intro y hy
        rcases List.mem_append.mp hy with h1 | h1
        · exact hacc y h1
        · rw [List.mem_singleton.mp h1]
          exact generate_dynamic_cases ar own

/-- C7: for every requested length, `generate_rhythms` and
`generate_dynamics` return exactly that many elements, each from the
permitted palette (tempo-scaled when a non-base tempo is supplied);
with rests disallowed every dynamic is a nonzero palette velocity. -/
theorem generation_lengths_and_palettes
    (total : ℕ) (tempo : Option ℚ) (source : Option (List ℚ)) (ar : Bool)
    (own glob own2 glob2 : Rng) (out1 : List ℚ) (out2 : List ℤ)
    (h1 : Except.map Prod.fst
      (generate_rhythms total tempo source own glob) = .ok out1)
    (h2 : Except.map Prod.fst
      (generate_dynamics total ar own2 glob2) = .ok out2) :
    out1.length = total ∧
    (∀ x ∈ out1, x ∈ scaled_rhythm_palette tempo source) ∧
    out2.length = total ∧
    (∀ x ∈ out2, x ∈ DYNAMICS ∨ (ar = true ∧ x = REST)) ∧
    (ar = false → ∀ x ∈ out2, x ≠ 0) := by
  have hdyn : ∀ x ∈ DYNAMICS, x ≠ (0 : ℤ) := by decide
  unfold generate_rhythms at h1
  unfold generate_dynamics at h2
  have hrs : ∀ rs o g,
      genRhythmsLoop (rhythm_palette source) total total own glob [] =
        .ok (rs, o, g) →
      rs.length = total ∧ ∀ x ∈ rs, x ∈ rhythm_palette source := by
    intro rs o g hloop
    exact ⟨genRhythmsLoop_length _ total total own glob [] rs o g hloop
        (by simp) (by simp),
      genRhythmsLoop_mem _ total (rhythm_palette_ne_nil source) total
        own glob [] rs o g hloop (by simp)⟩
  have hds : out2.length = total ∧
      ∀ x ∈ out2, x ∈ DYNAMICS ∨ (ar = true ∧ x = REST) := by
    cases hloop : genDynamicsLoop ar total total own2 glob2 [] with
    | error e => rw [hloop] at h2; cases h2
    | ok v =>
      obtain ⟨ds, o, g⟩ := v
      rw [hloop] at h2
      simp only [Except.map, Except.ok.injEq] at h2
      rw [← h2]
      exact ⟨genDynamicsLoop_length ar total total own2 glob2 [] ds o g
          hloop (by simp) (by simp),
        genDynamicsLoop_mem ar total total own2 glob2 [] ds o g hloop
          (by simp)⟩
  refine ⟨?_, ?_, hds.1, hds.2, ?_⟩
  · cases hloop : genRhythmsLoop (rhythm_palette source) total total
        own glob [] with
    | error e => rw [hloop] at h1; cases h1
    | ok v =>
      obtain ⟨rs, o, g⟩ := v
      rw [hloop] at h1
      obtain ⟨hlen, _⟩ := hrs rs o g hloop
      cases tempo with
      | none =>
        simp only [Except.map, Except.ok.injEq] at h1
        rw [← h1]
        exact hlen
      | some t =>
        simp only at h1
        by_cases ht : t ≠ BASE_TEMPO
        · rw [if_pos ht] at h1
          simp only [Except.map, Except.ok.injEq] at h1
          rw [← h1]
          simp [hlen]
        · rw [if_neg ht] at h1
          simp only [Except.map, Except.ok.injEq] at h1
          rw [← h1]
          exact hlen
  · cases hloop : genRhythmsLoop (rhythm_palette source) total total
        own glob [] with
    | error e => rw [hloop] at h1; cases h1
    | ok v =>
      obtain ⟨rs, o, g⟩ := v
      rw [hloop] at h1
      obtain ⟨_, hmem⟩ := hrs rs o g hloop
      cases tempo with
      | none =>
        simp only [Except.map, Except.ok.injEq] at h1
        rw [← h1]
        simpa [scaled_rhythm_palette] using hmem
      | some t =>
        simp only at h1
        by_cases ht : t ≠ BASE_TEMPO
        · rw [if_pos ht] at h1
          simp only [Except.map, Except.ok.injEq] at h1
          rw [← h1]
          intro x hx
          rcases List.mem_map.mp hx with ⟨r, hr, hxr⟩
          simp only [scaled_rhythm_palette, if_pos ht]
          exact List.mem_map.mpr ⟨r, hmem r hr, hxr⟩
        · rw [if_neg ht] at h1
          simp only [Except.map, Except.ok.injEq] at h1
          rw [← h1]
          intro x hx
          simp only [scaled_rhythm_palette, if_neg ht]
          exact hmem x hx
  · intro har x hx
    rcases hds.2 x hx with hmem | ⟨htrue, _⟩
    · exact hdyn x hmem
    · rw [har] at htrue
      cases htrue

/-- C7 (witness): the scenario `generate_dynamics(total=5,
allow_rests=False)` — and a matching rhythm request — on all-zero
streams: five rhythms `4.0` from the palette and five nonzero dynamics
`36`. -/
theorem generation_lengths_and_palettes_witness :
    (Except.map Prod.fst
        (generate_rhythms 5 none none ⟨fun _ => 0, 0⟩ ⟨fun _ => 0, 0⟩) =
      .ok [4, 4, 4, 4, 4] ∧
     Except.map Prod.fst
        (generate_dynamics 5 false ⟨fun _ => 0, 0⟩ ⟨fun _ => 0, 0⟩) =
      .ok [36, 36, 36, 36, 36]) ∧
    (([4, 4, 4, 4, 4] : List ℚ).length = 5 ∧
     (∀ x ∈ ([4, 4, 4, 4, 4] : List ℚ),
        x ∈ scaled_rhythm_palette none none) ∧
     ([36, 36, 36, 36, 36] : List ℤ).length = 5 ∧
     (∀ x ∈ ([36, 36, 36, 36, 36] : List ℤ),
        x ∈ DYNAMICS ∨ (false = true ∧ x = REST)) ∧
     (false = false → ∀ x ∈ ([36, 36, 36, 36, 36] : List ℤ), x ≠ 0)) := by
  have e1 : Except.map Prod.fst
      (generate_rhythms 5 none none ⟨fun _ => 0, 0⟩ ⟨fun _ => 0, 0⟩) =
      .ok [4, 4, 4, 4, 4] := by
    simp [generate_rhythms, rhythm_palette, genRhythmsLoop, randint,
      choice, Rng.next, Rng.draw, appendRun, _get_repetition_limit,
      scale_limit, RHYTHMS, BASE_TEMPO, Except.map]
  have e2 : Except.map Prod.fst
      (generate_dynamics 5 false ⟨fun _ => 0, 0⟩ ⟨fun _ => 0, 0⟩) =
      .ok [36, 36, 36, 36, 36] := by
    simp [generate_dynamics, genDynamicsLoop, generate_dynamic, randint,
      choice, Rng.next, Rng.draw, appendRun, _get_repetition_limit,
      scale_limit, DYNAMICS, REST, Except.map]
  exact ⟨⟨e1, e2⟩,
    generation_lengths_and_palettes 5 none none false _ _ _ _ _ _ e1 e2⟩

end Anima
